import Mathlib

/-!
Verification of the geemap colormaps module (src/geemap/colormaps.py).

The module is a thin layer over an external colormap engine (matplotlib) and
an external frozen-dictionary library (python-box).  The engine and the
frozen box are out of scope of the repository source, so they are modelled
from the specification: the engine as an abstract structure whose contract
fields state exactly what the spec says about it, the frozen box as a
dictionary with a frozen flag whose mutators reject writes when the flag is
set.  Everything else (get_palette, list_colormaps, the palette-dictionary
build loop, plot_colormaps) is translated from the Python source.
-/

set_option autoImplicit false

namespace Colormaps

/-- Lowercase hex digit character, as produced by Python percent-x
formatting: digits 0-9 then letters a-f. -/
def hexDigitChar (n : Nat) : Char :=
  if n < 10 then Char.ofNat (48 + n) else Char.ofNat (87 + n)

/-- The two hex digit characters of a byte, as produced by Python
percent-02x formatting of a number below 256. -/
def hexByteChars (n : Nat) : List Char :=
  [hexDigitChar (n / 16), hexDigitChar (n % 16)]

/-- One RGB color stop at byte precision.  Modelled from the spec: the
engine returns RGBA channels in the unit interval and the hex formatter
rounds each channel to an integer byte 0..255; we model the stop at that
byte precision (the alpha channel is dropped by the hex formatter and is
omitted). -/
structure RGB where
  r : Fin 256
  g : Fin 256
  b : Fin 256
deriving DecidableEq

/-- Modelled from the spec: the library hex formatter renders a color stop
as a hash sign followed by two hex digits per channel (a RRGGBB-style
string with a leading marker). -/
def rgb2hex (c : RGB) : String :=
  String.mk ('#' :: (hexByteChars c.r.val ++ hexByteChars c.g.val ++ hexByteChars c.b.val))

/-- Python slicing from index 1, used by the source to drop the leading
hash sign of a formatted color. -/
def pySlice1 (s : String) : String :=
  String.mk (s.data.drop 1)

/-- A colormap object returned by the engine: a number of stops N and the
stop at each index. -/
structure Colormap where
  N : Nat
  stop : Nat → RGB

/-- Modelled from the spec: the external colormap engine.  It registers a
list of ramp names and serves colormap lookups; the contract fields record
the behavior the spec ascribes to it: lookup of a registered name always
succeeds, lookup of an unregistered name fails (the UnknownRampError case,
modelled as none), and when a class count is requested the returned
colormap has exactly that many stops. -/
structure Engine where
  ramps : List String
  get_cmap : String → Option Nat → Option Colormap
  get_cmap_known : ∀ r oc, r ∈ ramps → (get_cmap r oc).isSome = true
  get_cmap_unknown : ∀ r oc, r ∉ ramps → get_cmap r oc = none
  get_cmap_count : ∀ r c cm, get_cmap r (some c) = some cm → cm.N = c

/-- Translation of list_colormaps: return the engine enumeration. -/
def list_colormaps (E : Engine) : List String :=
  E.ramps

/-- Translation of get_palette: look the colormap up in the engine, then
hex-format every stop and drop the leading hash sign of each.  A failed
engine lookup (UnknownRampError) is modelled as none. -/
def get_palette (E : Engine) (cmap_name : String) (n_class : Option Nat) : Option (List String) :=
  match E.get_cmap cmap_name n_class with
  | none => none
  | some cmap => some ((List.range cmap.N).map (fun i => pySlice1 (rgb2hex (cmap.stop i))))

/-- A character allowed by the hex color pattern: a digit or a letter a-f
in either case. -/
def isHexChar (c : Char) : Bool :=
  (('0' ≤ c && c ≤ '9') || ('a' ≤ c && c ≤ 'f')) || ('A' ≤ c && c ≤ 'F')

lemma isHexChar_hexDigitChar : ∀ n < 16, isHexChar (hexDigitChar n) = true := by
  decide

lemma hexByteChars_hex (n : Nat) (h : n < 256) : ∀ ch ∈ hexByteChars n, isHexChar ch = true := by
  intro ch hch
  simp only [hexByteChars, List.mem_cons, List.not_mem_nil, or_false] at hch
  rcases hch with rfl | rfl
  · exact isHexChar_hexDigitChar _ (by omega)
  · exact isHexChar_hexDigitChar _ (by omega)

lemma pySlice1_rgb2hex (c : RGB) :
    pySlice1 (rgb2hex c) =
      String.mk (hexByteChars c.r.val ++ hexByteChars c.g.val ++ hexByteChars c.b.val) := rfl

lemma hexColor_length (c : RGB) : (pySlice1 (rgb2hex c)).length = 6 := by
  simp [pySlice1_rgb2hex, String.length, hexByteChars]

lemma hexColor_chars (c : RGB) :
    ∀ ch ∈ (pySlice1 (rgb2hex c)).data, isHexChar ch = true := by
  rw [pySlice1_rgb2hex]
  intro ch hch
  simp only [String.mk, List.mem_append] at hch
  rcases hch with (h | h) | h
  · exact hexByteChars_hex _ c.r.isLt ch h
  · exact hexByteChars_hex _ c.g.isLt ch h
  · exact hexByteChars_hex _ c.b.isLt ch h

/-- Every color string produced by get_palette is a six-character hex
string. -/
lemma get_palette_hex (E : Engine) (r : String) (oc : Option Nat) (colors : List String)
    (h : get_palette E r oc = some colors) :
    ∀ s ∈ colors, s.length = 6 ∧ ∀ ch ∈ s.data, isHexChar ch = true := by
  unfold get_palette at h
  rcases hcm : E.get_cmap r oc with _ | cm
  · rw [hcm] at h; exact absurd h (by simp)
  · rw [hcm] at h
    simp only [Option.some.injEq] at h
    subst h
    intro s hs
    simp only [List.mem_map] at hs
    obtain ⟨i, _, rfl⟩ := hs
    exact ⟨hexColor_length _, hexColor_chars _⟩

/-- get_palette with an explicit class count returns exactly that many
colors. -/
lemma get_palette_count (E : Engine) (r : String) (c : Nat) (colors : List String)
    (h : get_palette E r (some c) = some colors) :
    colors.length = c := by
  unfold get_palette at h
  rcases hcm : E.get_cmap r (some c) with _ | cm
  · rw [hcm] at h; exact absurd h (by simp)
  · rw [hcm] at h
    simp only [Option.some.injEq] at h
    subst h
    simp [E.get_cmap_count r c cm hcm]

/-- get_palette succeeds on every engine-registered ramp name. -/
lemma get_palette_isSome (E : Engine) (r : String) (oc : Option Nat) (hr : r ∈ E.ramps) :
    (get_palette E r oc).isSome = true := by
  unfold get_palette
  have := E.get_cmap_known r oc hr
  rcases hcm : E.get_cmap r oc with _ | cm
  · rw [hcm] at this; exact absurd this (by simp)
  · simp

/-- Python str.zfill for non-negative inputs: pad on the left with zero
characters up to the requested width. -/
def zfill (s : String) (width : Nat) : String :=
  String.mk (List.replicate (width - s.length) '0') ++ s

/-- The class-count key built by the catalog loop: the letter n followed
by the zero-filled decimal count, exactly as the source writes it. -/
def classKey (i : Nat) : String :=
  "n" ++ zfill (toString i) 2

/-- Python dictionary lookup on an insertion-ordered association list. -/
def dictGet {α : Type} (k : String) : List (String × α) → Option α
  | [] => none
  | (a, b) :: rest => if a = k then some b else dictGet k rest

/-- Python dictionary assignment on an insertion-ordered association
list: overwrite the value in place when the key is present, append the
pair at the end otherwise. -/
def dictInsert {α : Type} (k : String) (v : α) : List (String × α) → List (String × α)
  | [] => [(k, v)]
  | (a, b) :: rest => if a = k then (k, v) :: rest else (a, b) :: dictInsert k v rest

/-- A value of the palette dictionary: either a flat hand-authored color
list or an engine-derived mapping from class-count key to color list. -/
inductive PaletteEntry : Type where
  | flat (colors : List String)
  | graded (colorDict : List (String × List String))
deriving DecidableEq

/-- All color strings stored in a palette entry. -/
def entryStrings : PaletteEntry → List String
  | .flat colors => colors
  | .graded colorDict => (colorDict.map Prod.snd).flatten

/-- The hand-authored ndvi color list, copied literally from the source. -/
def ndviColors : List String :=
  ["FFFFFF", "CE7E45", "DF923D", "F1B555", "FCD163", "99B718", "74A901",
   "66A000", "529400", "3E8601", "207401", "056201", "004C00", "023B01",
   "012E01", "011D01", "011301"]

/-- The hand-authored ndwi color list, copied literally from the source
(each string keeps its leading hash sign, as written there). -/
def ndwiColors : List String :=
  ["#ece7f2", "#d0d1e6", "#a6bddb", "#74a9cf", "#3690c0", "#0570b0",
   "#045a8d", "#023858"]

/-- The hand-authored dem color list, copied literally from the source. -/
def demColors : List String :=
  ["006633", "E5FFCC", "662A00", "D8D8D8", "F5F5F5"]

/-- The initial value of the private palette dictionary: the three
hand-authored flat entries, in source order.  The engine-derived loop
runs after this dictionary is created. -/
def handAuthoredDict : List (String × PaletteEntry) :=
  [("ndvi", .flat ndviColors), ("ndwi", .flat ndwiColors), ("dem", .flat demColors)]

/-- The inner for-loop of the catalog build: for each count in the list,
sample the ramp and assign the result under its class-count key.  A
sampling failure aborts the whole build (module load fails). -/
def colorDictLoop (E : Engine) (cmap_name : String) :
    List Nat → List (String × List String) → Option (List (String × List String))
  | [], acc => some acc
  | i :: rest, acc =>
    match get_palette E cmap_name (some i) with
    | none => none
    | some colors => colorDictLoop E cmap_name rest (dictInsert (classKey i) colors acc)

/-- The inner dictionary of one engine-derived ramp: class-count keys for
counts in range(3, 13) mapped to the sampled color lists. -/
def buildColorDict (E : Engine) (cmap_name : String) : Option (List (String × List String)) :=
  colorDictLoop E cmap_name (List.range' 3 10) []

/-- The outer for-loop of the catalog build, over the enumerated ramp
names, with the always-true index guard kept from the source. -/
def paletteLoop (E : Engine) (total : Nat) :
    List (Nat × String) → List (String × PaletteEntry) → Option (List (String × PaletteEntry))
  | [], acc => some acc
  | p :: rest, acc =>
    if p.1 < total then
      match buildColorDict E p.2 with
      | none => none
      | some cd => paletteLoop E total rest (dictInsert p.2 (PaletteEntry.graded cd) acc)
    else paletteLoop E total rest acc

/-- Translation of the module-level build of the private palette
dictionary: start from the three hand-authored entries, then for every
enumerated ramp name (guarded by the redundant index check of the source)
assign the engine-derived inner dictionary under that name. -/
def buildPaletteDict (E : Engine) : Option (List (String × PaletteEntry)) :=
  paletteLoop E (list_colormaps E).length (list_colormaps E).enum handAuthoredDict

/-- Modelled from the spec: the error raised by the box library when a
frozen box is written to. -/
inductive BoxError : Type where
  | boxError
deriving DecidableEq

/-- Modelled from the spec: the box wrapper of the third-party box
library.  It carries the wrapped dictionary and the frozen flag passed at
construction. -/
structure BoxDict : Type where
  contents : List (String × PaletteEntry)
  frozen : Bool
deriving DecidableEq

/-- Modelled from the spec: item assignment on a box fails with a box
error when the box is frozen, and otherwise writes through. -/
def BoxDict.setItem (b : BoxDict) (k : String) (v : PaletteEntry) : Except BoxError BoxDict :=
  if b.frozen then .error .boxError else .ok ⟨dictInsert k v b.contents, b.frozen⟩

/-- Modelled from the spec: item deletion on a box fails with a box error
when the box is frozen, and otherwise removes the key. -/
def BoxDict.delItem (b : BoxDict) (k : String) : Except BoxError BoxDict :=
  if b.frozen then .error .boxError
  else .ok ⟨b.contents.filter (fun p => !(p.1 == k)), b.frozen⟩

/-- Item lookup on a box reads the wrapped dictionary. -/
def BoxDict.getItem (b : BoxDict) (k : String) : Option PaletteEntry :=
  dictGet k b.contents

/-- Translation of the published palettes object: the built palette
dictionary wrapped in a box constructed with the frozen flag set. -/
def palettes (E : Engine) : Option BoxDict :=
  (buildPaletteDict E).map (fun d => ⟨d, true⟩)

/-- Modelled from the spec: the axes value returned by the plotting
backend when a grid of rows is requested.  With one row the backend
squeezes the array down to a single non-iterable axes object; with more
rows it returns an iterable array of axes; a request for zero rows is
rejected by the backend. -/
inductive SubplotsAxes : Type where
  | single
  | array (n : Nat)
deriving DecidableEq

/-- Modelled from the spec: creation of a stacked drawing surface with
the requested number of rows. -/
def subplots (nrows : Nat) : Option SubplotsAxes :=
  if nrows = 0 then none
  else if nrows = 1 then some .single
  else some (.array nrows)

/-- The observable shape of the stacked figure built by plot_colormaps:
its width and height and the ramp name labelling each row, top to
bottom.  Pixel content of the 256-step gradient rows is presentation
detail and is not recorded. -/
structure StackedFigure : Type where
  figWidth : ℚ
  figHeight : ℚ
  rowNames : List String
deriving DecidableEq

/-- Translation of plot_colormaps: enumerate the ramps, create one
subplot row per ramp with total height equal to the per-row height times
the row count, then draw one row per (axes, name) pair of the zip of the
axes with the name list.  The zip over a single squeezed axes object is a
type error, modelled as none; a failed engine lookup of a row name is
also modelled as none. -/
def plot_colormaps (E : Engine) (width height : ℚ) : Option StackedFigure :=
  let cmap_list := list_colormaps E
  let nrows := cmap_list.length
  match subplots nrows with
  | none => none
  | some .single => none
  | some (.array n) =>
    let rows := (List.range n).zip cmap_list
    if rows.all (fun p => (E.get_cmap p.2 none).isSome)
    then some ⟨width, height * (nrows : ℚ), rows.map Prod.snd⟩
    else none

/-- A stub engine over a fixed name list, every stop black: used to
instantiate the theorems at concrete inputs. -/
def listEngine (names : List String) : Engine where
  ramps := names
  get_cmap := fun r oc =>
    if r ∈ names then some ⟨oc.getD 256, fun _ => ⟨0, 0, 0⟩⟩ else none
  get_cmap_known := by
    intro r oc hr
    simp [hr]
  get_cmap_unknown := by
    intro r oc hr
    simp [hr]
  get_cmap_count := by
    intro r c cm h
    simp only [] at h
    split at h
    · cases h
      rfl
    · cases h

/-- A stub engine with the single registered ramp name X. -/
def stubEngine : Engine := listEngine ["X"]

/-- A stub engine whose single ramp name collides with the hand-authored
name ndvi. -/
def collideEngine : Engine := listEngine ["ndvi"]

/-- A stub engine with two registered ramp names. -/
def twoEngine : Engine := listEngine ["A", "B"]

/-- A stub engine with no registered ramp names. -/
def noRampEngine : Engine := listEngine []

lemma dictGet_insert_self {α : Type} (k : String) (v : α) :
    ∀ d : List (String × α), dictGet k (dictInsert k v d) = some v
  | [] => by simp [dictInsert, dictGet]
  | (a, b) :: rest => by
    by_cases hak : a = k
    · simp [dictInsert, hak, dictGet]
    · simp [dictInsert, hak, dictGet, dictGet_insert_self k v rest]

lemma dictGet_insert_ne {α : Type} (k q : String) (v : α) (hne : q ≠ k) :
    ∀ d : List (String × α), dictGet q (dictInsert k v d) = dictGet q d
  | [] => by simp [dictInsert, dictGet, Ne.symm hne]
  | (a, b) :: rest => by
    by_cases hak : a = k
    · subst hak
      simp [dictInsert, dictGet, Ne.symm hne]
    · simp only [dictInsert, if_neg hak, dictGet]
      rw [dictGet_insert_ne k q v hne rest]

lemma dictInsert_keys {α : Type} (k : String) (v : α) :
    ∀ d : List (String × α), k ∉ d.map Prod.fst →
      (dictInsert k v d).map Prod.fst = d.map Prod.fst ++ [k]
  | [], _ => rfl
  | (a, b) :: rest, h => by
    simp only [List.map_cons, List.mem_cons] at h
    push_neg at h
    have hak : ¬ a = k := fun hak => h.1 hak.symm
    simp [dictInsert, hak, dictInsert_keys k v rest h.2]

lemma dictInsert_mem {α : Type} (k : String) (v : α) (p : String × α) :
    ∀ d : List (String × α), p ∈ dictInsert k v d → p = (k, v) ∨ p ∈ d
  | [], h => by simpa [dictInsert] using h
  | (a, b) :: rest, h => by
    by_cases hak : a = k
    · simp only [dictInsert, if_pos hak] at h
      rcases List.mem_cons.mp h with h1 | h1
      · exact Or.inl h1
      · exact Or.inr (List.mem_cons_of_mem _ h1)
    · simp only [dictInsert, if_neg hak] at h
      rcases List.mem_cons.mp h with h1 | h1
      · exact Or.inr (by rw [h1]; exact List.mem_cons_self _ _)
      · rcases dictInsert_mem k v p rest h1 with h2 | h2
        · exact Or.inl h2
        · exact Or.inr (List.mem_cons_of_mem _ h2)

/-- Proof scaffolding: the pure effect of the inner catalog loop when
every sampling call succeeds with value f i. -/
def insertAll (f : Nat → List String) :
    List Nat → List (String × List String) → List (String × List String)
  | [], acc => acc
  | i :: rest, acc => insertAll f rest (dictInsert (classKey i) (f i) acc)

lemma colorDictLoop_eq (E : Engine) (name : String) (f : Nat → List String) :
    ∀ (l : List Nat) (acc : List (String × List String)),
      (∀ i ∈ l, get_palette E name (some i) = some (f i)) →
      colorDictLoop E name l acc = some (insertAll f l acc)
  | [], _, _ => rfl
  | i :: rest, acc, hf => by
    have hi := hf i (List.mem_cons_self i rest)
    simp only [colorDictLoop, hi, insertAll]
    exact colorDictLoop_eq E name f rest _ (fun j hj => hf j (List.mem_cons_of_mem _ hj))

lemma insertAll_get_notmem (f : Nat → List String) :
    ∀ (l : List Nat) (acc : List (String × List String)) (q : String),
      (∀ i ∈ l, classKey i ≠ q) →
      dictGet q (insertAll f l acc) = dictGet q acc
  | [], _, _, _ => rfl
  | i :: rest, acc, q, h => by
    rw [insertAll,
      insertAll_get_notmem f rest _ q (fun j hj => h j (List.mem_cons_of_mem _ hj)),
      dictGet_insert_ne _ _ _ (fun hq => h i (List.mem_cons_self i rest) hq.symm)]

lemma insertAll_get_mem (f : Nat → List String) :
    ∀ (l : List Nat) (acc : List (String × List String)) (c : Nat), c ∈ l →
      (∀ i ∈ l, classKey i = classKey c → i = c) →
      dictGet (classKey c) (insertAll f l acc) = some (f c)
  | [], _, _, hc, _ => absurd hc (by simp)
  | i :: rest, acc, c, hc, hinj => by
    rw [insertAll]
    by_cases hcr : c ∈ rest
    · exact insertAll_get_mem f rest _ c hcr
        (fun j hj => hinj j (List.mem_cons_of_mem _ hj))
    · have hci : c = i := by
        rcases List.mem_cons.mp hc with h | h
        · exact h
        · exact absurd h hcr
      subst hci
      rw [insertAll_get_notmem f rest _ (classKey c)
        (fun j hj hkey => hcr (hinj j (List.mem_cons_of_mem _ hj) hkey ▸ hj)),
        dictGet_insert_self]

lemma insertAll_keys (f : Nat → List String) :
    ∀ (l : List Nat) (acc : List (String × List String)),
      (l.map classKey).Nodup →
      (∀ i ∈ l, classKey i ∉ acc.map Prod.fst) →
      (insertAll f l acc).map Prod.fst = acc.map Prod.fst ++ l.map classKey
  | [], acc, _, _ => by simp [insertAll]
  | i :: rest, acc, hnd, hacc => by
    simp only [List.map_cons, List.nodup_cons] at hnd
    rw [insertAll, insertAll_keys f rest _ hnd.2 ?_,
      dictInsert_keys _ _ _ (hacc i (List.mem_cons_self i rest))]
    · simp
    · intro j hj
      rw [dictInsert_keys _ _ _ (hacc i (List.mem_cons_self i rest))]
      simp only [List.mem_append, List.mem_singleton]
      rintro (h | h)
      · exact hacc j (List.mem_cons_of_mem _ hj) h
      · exact hnd.1 (h ▸ List.mem_map_of_mem classKey hj)

lemma insertAll_mem (f : Nat → List String) :
    ∀ (l : List Nat) (acc : List (String × List String)) (p : String × List String),
      p ∈ insertAll f l acc → p ∈ acc ∨ ∃ i ∈ l, p = (classKey i, f i)
  | [], _, _, h => Or.inl h
  | i :: rest, acc, p, h => by
    rcases insertAll_mem f rest _ p h with h | ⟨j, hj, hp⟩
    · rcases dictInsert_mem _ _ _ _ h with h | h
      · exact Or.inr ⟨i, List.mem_cons_self i rest, h⟩
      · exact Or.inl h
    · exact Or.inr ⟨j, List.mem_cons_of_mem _ hj, hp⟩

lemma classKey_inj_bounded : ∀ i < 13, ∀ j < 13, classKey i = classKey j → i = j := by
  decide

/-- Proof scaffolding: the value sampled for one class count, defaulted
for the total function passed to insertAll. -/
def gpD (E : Engine) (r : String) (i : Nat) : List String :=
  (get_palette E r (some i)).getD []

lemma gpD_eq (E : Engine) (r : String) (hr : r ∈ E.ramps) (i : Nat) :
    get_palette E r (some i) = some (gpD E r i) := by
  have hs := get_palette_isSome E r (some i) hr
  rcases hgp : get_palette E r (some i) with _ | colors
  · rw [hgp] at hs; exact absurd hs (by simp)
  · simp [gpD, hgp]

/-- The inner dictionary of an engine-registered ramp: it exists, its
lookups at in-range class-count keys agree with direct sampling, its key
list is exactly n03 through n12 in order, and all of its values come from
sampling some in-range count. -/
lemma buildColorDict_spec (E : Engine) (r : String) (hr : r ∈ E.ramps) :
    ∃ cd, buildColorDict E r = some cd ∧
      (∀ c, 3 ≤ c → c ≤ 12 → dictGet (classKey c) cd = get_palette E r (some c)) ∧
      cd.map Prod.fst = (List.range' 3 10).map classKey ∧
      (∀ p ∈ cd, ∃ i, 3 ≤ i ∧ i ≤ 12 ∧ get_palette E r (some i) = some p.2) := by
  have hf : ∀ i ∈ List.range' 3 10, get_palette E r (some i) = some (gpD E r i) :=
    fun i _ => gpD_eq E r hr i
  refine ⟨insertAll (gpD E r) (List.range' 3 10) [],
    colorDictLoop_eq E r (gpD E r) _ _ hf, ?_, ?_, ?_⟩
  · intro c h3 h12
    have hc : c ∈ List.range' 3 10 := by
      rw [List.mem_range'_1]; omega
    rw [insertAll_get_mem (gpD E r) _ _ c hc ?_, gpD_eq E r hr c]
    intro i hi hkey
    rw [List.mem_range'_1] at hi
    exact classKey_inj_bounded i (by omega) c (by omega) hkey
  · exact insertAll_keys (gpD E r) _ [] (by decide) (by simp)
  · intro p hp
    rcases insertAll_mem (gpD E r) _ _ p hp with h | ⟨i, hi, hp2⟩
    · exact absurd h (by simp)
    · rw [List.mem_range'_1] at hi
      refine ⟨i, by omega, by omega, ?_⟩
      rw [hp2]
      exact gpD_eq E r hr i

/-- The outer catalog loop: it succeeds whenever every listed ramp
samples, and its result looks up each name that was processed to the
engine-derived graded entry and each other name to its value in the
starting dictionary. -/
lemma paletteLoop_get (E : Engine) (total : Nat) :
    ∀ (l : List (Nat × String)) (acc : List (String × PaletteEntry)),
      (∀ p ∈ l, p.1 < total) →
      (∀ p ∈ l, (buildColorDict E p.2).isSome = true) →
      ∃ d, paletteLoop E total l acc = some d ∧
        ∀ r, dictGet r d =
          if r ∈ l.map Prod.snd
          then (buildColorDict E r).map PaletteEntry.graded
          else dictGet r acc
  | [], acc, _, _ => ⟨acc, rfl, by simp⟩
  | (i, name) :: rest, acc, hg, hok => by
    have hi : i < total := hg (i, name) (List.mem_cons_self _ _)
    have hbw := hok (i, name) (List.mem_cons_self _ _)
    rcases hbcd : buildColorDict E name with _ | cd
    · rw [hbcd] at hbw; exact absurd hbw (by simp)
    · obtain ⟨d, hd, hget⟩ := paletteLoop_get E total rest
        (dictInsert name (.graded cd) acc)
        (fun p hp => hg p (List.mem_cons_of_mem _ hp))
        (fun p hp => hok p (List.mem_cons_of_mem _ hp))
      refine ⟨d, ?_, ?_⟩
      · simp only [paletteLoop, if_pos hi, hbcd]
        exact hd
      · intro r
        rw [hget r]
        by_cases hrr : r ∈ rest.map Prod.snd
        · rw [if_pos hrr, if_pos (by simp [hrr])]
        · rw [if_neg hrr]
          by_cases hrn : r = name
          · subst hrn
            rw [dictGet_insert_self, if_pos (by simp), hbcd]
            rfl
          · have hnotin : r ∉ ((i, name) :: rest).map Prod.snd := by
              simp only [List.map_cons, List.mem_cons]
              push_neg
              exact ⟨hrn, hrr⟩
            rw [dictGet_insert_ne _ _ _ hrn, if_neg hnotin]

/-- The built palette dictionary: it always exists under the engine
contract, engine-registered names look up to their engine-derived graded
entries (they overwrite hand-authored entries of the same name, since the
loop runs after the literal dictionary is created), and all other names
look up to their value in the hand-authored dictionary. -/
lemma buildPaletteDict_spec (E : Engine) :
    ∃ d, buildPaletteDict E = some d ∧
      ∀ r, dictGet r d =
        if r ∈ E.ramps
        then (buildColorDict E r).map PaletteEntry.graded
        else dictGet r handAuthoredDict := by
  have hg : ∀ p ∈ (list_colormaps E).enum, p.1 < (list_colormaps E).length :=
    fun p hp => List.fst_lt_of_mem_enum hp
  have hok : ∀ p ∈ (list_colormaps E).enum, (buildColorDict E p.2).isSome = true := by
    intro p hp
    have hmem : p.2 ∈ E.ramps := by
      have h2 := List.mem_map_of_mem Prod.snd hp
      rwa [List.enum_map_snd] at h2
    obtain ⟨cd, hcd, _⟩ := buildColorDict_spec E p.2 hmem
    simp [hcd]
  obtain ⟨d, hd, hget⟩ := paletteLoop_get E (list_colormaps E).length
    (list_colormaps E).enum handAuthoredDict hg hok
  refine ⟨d, hd, ?_⟩
  intro r
  rw [hget r]
  simp only [List.enum_map_snd, list_colormaps]

/-- With at least two registered ramps, plot_colormaps builds the figure
whose width is the given width, whose height is the per-row height times
the ramp count, and whose rows are the enumerated ramp names in order. -/
lemma plot_colormaps_eq (E : Engine) (w hpr : ℚ) (h2 : 2 ≤ E.ramps.length) :
    plot_colormaps E w hpr = some ⟨w, hpr * (E.ramps.length : ℚ), E.ramps⟩ := by
  have h0 : E.ramps.length ≠ 0 := by omega
  have h1 : E.ramps.length ≠ 1 := by omega
  have hall : ((List.range E.ramps.length).zip E.ramps).all
      (fun p => (E.get_cmap p.2 none).isSome) = true := by
    rw [List.all_eq_true]
    intro p hp
    exact E.get_cmap_known p.2 none (List.of_mem_zip hp).2
  have hsnd : ((List.range E.ramps.length).zip E.ramps).map Prod.snd = E.ramps :=
    List.map_snd_zip _ _ (by rw [List.length_range])
  simp only [plot_colormaps, list_colormaps, subplots, if_neg h0, if_neg h1, hall,
    if_true, hsnd]

/-- C1 counterexample: with an engine that registers the ramp name ndvi,
the final catalog maps ndvi to the engine-derived inner mapping, not to
the hand-authored literal color list, so the claimed hand-authored
precedence on collision is false. -/
theorem C1_counterexample :
    (buildPaletteDict collideEngine).bind (dictGet "ndvi") ≠
      some (PaletteEntry.flat ndviColors) := by
  decide

/-- C1 amended: at catalog build time, if an engine-enumerated ramp name
collides with one of the three hand-authored names, the engine-derived
entry takes precedence: the hand-authored entries are populated first and
the engine loop overwrites them, so the final catalog maps every such
colliding name to the engine-derived inner mapping. -/
theorem C1_collision_engine_precedence (E : Engine) (name : String)
    (hhand : name ∈ ["ndvi", "ndwi", "dem"]) (hr : name ∈ E.ramps) :
    ∃ b cd, palettes E = some b ∧ buildColorDict E name = some cd ∧
      b.getItem name = some (PaletteEntry.graded cd) := by
  obtain ⟨d, hd, hget⟩ := buildPaletteDict_spec E
  obtain ⟨cd, hcd, -, -, -⟩ := buildColorDict_spec E name hr
  refine ⟨⟨d, true⟩, cd, by simp [palettes, hd], hcd, ?_⟩
  show dictGet name d = some (PaletteEntry.graded cd)
  rw [hget name, if_pos hr, hcd]
  rfl

/-- C1 witness: the amended claim instantiated at the collision stub
engine, whose single ramp name is ndvi. -/
theorem C1_witness :
    ∃ b cd, palettes collideEngine = some b ∧
      buildColorDict collideEngine "ndvi" = some cd ∧
      b.getItem "ndvi" = some (PaletteEntry.graded cd) :=
  C1_collision_engine_precedence collideEngine "ndvi" (by decide) (by decide)

/-- C2 counterexample: in the published catalog the hand-authored ndwi
entry keeps the leading hash sign of its literal strings, so its first
color string has length 7, not 6; the claim that every stored color
string has length exactly 6 with no leading marker is false. -/
theorem C2_counterexample :
    palettes noRampEngine = some ⟨handAuthoredDict, true⟩ ∧
    BoxDict.getItem ⟨handAuthoredDict, true⟩ "ndwi" = some (PaletteEntry.flat ndwiColors) ∧
    "#ece7f2" ∈ ndwiColors ∧ ("#ece7f2").length ≠ 6 := by
  refine ⟨rfl, by decide, by decide, by decide⟩

/-- C2 amended: every color string stored in the published catalog under
an engine-derived entry or under the hand-authored ndvi and dem entries
has length exactly 6 and consists only of hex digits; the strings of the
hand-authored ndwi entry instead have length 7 and consist of a leading
hash sign followed by six hex digits. -/
theorem C2_hex_amended (E : Engine) (b : BoxDict) (r : String)
    (e : PaletteEntry) (s : String) (hb : palettes E = some b)
    (he : b.getItem r = some e) (hs : s ∈ entryStrings e) :
    (s.length = 6 ∧ ∀ ch ∈ s.data, isHexChar ch = true) ∨
    (r = "ndwi" ∧ s ∈ ndwiColors ∧ s.length = 7 ∧ s.data.head? = some '#' ∧
      ∀ ch ∈ s.data.tail, isHexChar ch = true) := by
  obtain ⟨d, hd, hget⟩ := buildPaletteDict_spec E
  have hbd : b = ⟨d, true⟩ := by
    rw [palettes, hd] at hb
    exact (Option.some_injective _ hb).symm
  subst hbd
  have he2 : dictGet r d = some e := he
  rw [hget r] at he2
  by_cases hr : r ∈ E.ramps
  · rw [if_pos hr] at he2
    obtain ⟨cd, hcd, -, -, hvals⟩ := buildColorDict_spec E r hr
    rw [hcd] at he2
    cases he2
    simp only [entryStrings, List.mem_flatten, List.mem_map] at hs
    obtain ⟨l, ⟨p, hp, rfl⟩, hsl⟩ := hs
    obtain ⟨i, -, -, hgp⟩ := hvals p hp
    exact Or.inl (get_palette_hex E r (some i) p.2 hgp s hsl)
  · rw [if_neg hr] at he2
    by_cases h1 : r = "ndvi"
    · subst h1
      cases he2
      have hall : ∀ t ∈ ndviColors, t.length = 6 ∧ ∀ ch ∈ t.data, isHexChar ch = true := by
        decide
      exact Or.inl (hall s hs)
    · by_cases h2 : r = "ndwi"
      · subst h2
        cases he2
        have hall : ∀ t ∈ ndwiColors, t.length = 7 ∧ t.data.head? = some '#' ∧
            ∀ ch ∈ t.data.tail, isHexChar ch = true := by
          decide
        obtain ⟨hl, hh, ht⟩ := hall s hs
        exact Or.inr ⟨rfl, hs, hl, hh, ht⟩
      · by_cases h3 : r = "dem"
        · subst h3
          cases he2
          have hall : ∀ t ∈ demColors, t.length = 6 ∧ ∀ ch ∈ t.data, isHexChar ch = true := by
            decide
          exact Or.inl (hall s hs)
        · exact absurd he2 (by
            simp [handAuthoredDict, dictGet, Ne.symm h1, Ne.symm h2, Ne.symm h3])

/-- C2 witness: the amended claim instantiated at the hand-authored dem
entry of the catalog built over the empty stub engine. -/
theorem C2_witness :
    ("006633".length = 6 ∧ ∀ ch ∈ "006633".data, isHexChar ch = true) ∨
    ("dem" = "ndwi" ∧ "006633" ∈ ndwiColors ∧ "006633".length = 7 ∧
      "006633".data.head? = some '#' ∧
      ∀ ch ∈ "006633".data.tail, isHexChar ch = true) :=
  C2_hex_amended noRampEngine ⟨handAuthoredDict, true⟩ "dem"
    (PaletteEntry.flat demColors) "006633" rfl (by decide) (by decide)

/-- C3: for every ramp name known to the engine and every class count c
between 3 and 12, get_palette returns exactly c color strings, each of
which has length 6 and consists only of hex digits. -/
theorem C3_get_palette_count_hex (E : Engine) (r : String) (c : Nat)
    (hr : r ∈ E.ramps) (h3 : 3 ≤ c) (h12 : c ≤ 12) :
    ∃ colors, get_palette E r (some c) = some colors ∧ colors.length = c ∧
      ∀ s ∈ colors, s.length = 6 ∧ ∀ ch ∈ s.data, isHexChar ch = true := by
  have h := gpD_eq E r hr c
  exact ⟨gpD E r c, h, get_palette_count E r c _ h, get_palette_hex E r (some c) _ h⟩

/-- C3 witness: the claim instantiated at the one-ramp stub engine with
class count 3. -/
theorem C3_witness :
    ∃ colors, get_palette stubEngine "X" (some 3) = some colors ∧ colors.length = 3 ∧
      ∀ s ∈ colors, s.length = 6 ∧ ∀ ch ∈ s.data, isHexChar ch = true :=
  C3_get_palette_count_hex stubEngine "X" 3 (by decide) (by decide) (by decide)

/-- C4: for every engine-derived ramp name and every count c between 3
and 12, the catalog entry for that name is the inner mapping whose value
at the class-count key for c is exactly the list an independent
get_palette call returns for that name and count. -/
theorem C4_catalog_matches_sampler (E : Engine) (r : String) (c : Nat)
    (hr : r ∈ E.ramps) (h3 : 3 ≤ c) (h12 : c ≤ 12) :
    ∃ b cd colors, palettes E = some b ∧
      b.getItem r = some (PaletteEntry.graded cd) ∧
      dictGet (classKey c) cd = some colors ∧
      get_palette E r (some c) = some colors := by
  obtain ⟨d, hd, hget⟩ := buildPaletteDict_spec E
  obtain ⟨cd, hcd, hlookup, -, -⟩ := buildColorDict_spec E r hr
  refine ⟨⟨d, true⟩, cd, gpD E r c, by simp [palettes, hd], ?_, ?_, gpD_eq E r hr c⟩
  · show dictGet r d = some (PaletteEntry.graded cd)
    rw [hget r, if_pos hr, hcd]
    rfl
  · rw [hlookup c h3 h12, gpD_eq E r hr c]

/-- C4 witness: the claim instantiated at the one-ramp stub engine with
class count 5, whose class-count key is n05. -/
theorem C4_witness :
    ∃ b cd colors, palettes stubEngine = some b ∧
      b.getItem "X" = some (PaletteEntry.graded cd) ∧
      dictGet (classKey 5) cd = some colors ∧
      get_palette stubEngine "X" (some 5) = some colors :=
  C4_catalog_matches_sampler stubEngine "X" 5 (by decide) (by decide) (by decide)

/-- C5: the published palettes box is constructed frozen, so every
attempt to insert, update or delete an entry fails with the box error
rather than succeeding, and no mutated box is ever produced. -/
theorem C5_palettes_frozen (E : Engine) (b : BoxDict) (hb : palettes E = some b)
    (k : String) (v : PaletteEntry) :
    b.setItem k v = Except.error BoxError.boxError ∧
    b.delItem k = Except.error BoxError.boxError := by
  have hf : b.frozen = true := by
    rcases hd : buildPaletteDict E with - | d
    · rw [palettes, hd] at hb
      cases hb
    · rw [palettes, hd] at hb
      rw [← Option.some_injective _ hb]
  constructor
  · rw [BoxDict.setItem, if_pos hf]
  · rw [BoxDict.delItem, if_pos hf]

/-- C5 witness: the claim instantiated at the catalog of the empty stub
engine, attempting to overwrite the existing dem entry. -/
theorem C5_witness :
    BoxDict.setItem ⟨handAuthoredDict, true⟩ "dem" (PaletteEntry.flat []) =
      Except.error BoxError.boxError ∧
    BoxDict.delItem ⟨handAuthoredDict, true⟩ "dem" =
      Except.error BoxError.boxError :=
  C5_palettes_frozen noRampEngine ⟨handAuthoredDict, true⟩ rfl "dem"
    (PaletteEntry.flat [])

/-- C6: when the engine does not itself register the name ndvi, the
published catalog maps ndvi to the hand-authored flat list of exactly 17
color strings, for every engine, so the entry is a flat list rather than
a class-count mapping and is independent of the sampling logic. -/
theorem C6_ndvi_flat (E : Engine) (h : "ndvi" ∉ E.ramps) :
    ∃ b, palettes E = some b ∧
      b.getItem "ndvi" = some (PaletteEntry.flat ndviColors) ∧
      ndviColors.length = 17 := by
  obtain ⟨d, hd, hget⟩ := buildPaletteDict_spec E
  refine ⟨⟨d, true⟩, by simp [palettes, hd], ?_, by decide⟩
  show dictGet "ndvi" d = some (PaletteEntry.flat ndviColors)
  rw [hget _, if_neg h]
  rfl

/-- C6 witness: the claim instantiated at the empty stub engine. -/
theorem C6_witness :
    ∃ b, palettes noRampEngine = some b ∧
      b.getItem "ndvi" = some (PaletteEntry.flat ndviColors) ∧
      ndviColors.length = 17 :=
  C6_ndvi_flat noRampEngine (by decide)

/-- C7: for every engine-derived ramp name, the inner mapping of the
published catalog has exactly the ten keys n03 through n12, in order. -/
theorem C7_graded_keys (E : Engine) (r : String) (hr : r ∈ E.ramps) :
    ∃ b cd, palettes E = some b ∧
      b.getItem r = some (PaletteEntry.graded cd) ∧
      cd.map Prod.fst =
        ["n03", "n04", "n05", "n06", "n07", "n08", "n09", "n10", "n11", "n12"] := by
  obtain ⟨d, hd, hget⟩ := buildPaletteDict_spec E
  obtain ⟨cd, hcd, -, hkeys, -⟩ := buildColorDict_spec E r hr
  refine ⟨⟨d, true⟩, cd, by simp [palettes, hd], ?_, ?_⟩
  · show dictGet r d = some (PaletteEntry.graded cd)
    rw [hget r, if_pos hr, hcd]
    rfl
  · rw [hkeys]
    decide

/-- C7 witness: the claim instantiated at the one-ramp stub engine. -/
theorem C7_witness :
    ∃ b cd, palettes stubEngine = some b ∧
      b.getItem "X" = some (PaletteEntry.graded cd) ∧
      cd.map Prod.fst =
        ["n03", "n04", "n05", "n06", "n07", "n08", "n09", "n10", "n11", "n12"] :=
  C7_graded_keys stubEngine "X" (by decide)

/-- C8: when get_palette is called with a name the engine does not
register, such as ndvi, the engine failure (UnknownRampError, modelled as
none) propagates: the sampler returns no hand-authored list and never
consults the catalog, whose definition it does not mention. -/
theorem C8_unknown_ramp (E : Engine) (name : String) (oc : Option Nat)
    (h : name ∉ E.ramps) : get_palette E name oc = none := by
  rw [get_palette, E.get_cmap_unknown name oc h]

/-- C8 witness: the claim instantiated at the one-ramp stub engine, which
does not register ndvi, with class count 5. -/
theorem C8_witness : get_palette stubEngine "ndvi" (some 5) = none :=
  C8_unknown_ramp stubEngine "ndvi" (some 5) (by decide)

/-- C9: with at least two enumerated ramps (the success precondition),
plot_colormaps builds one stacked figure with exactly one row per
enumerated ramp name in enumeration order, and its total height is the
per-row height multiplied by the number of ramp names. -/
theorem C9_plot_colormaps_shape (E : Engine) (w hpr : ℚ)
    (h2 : 2 ≤ E.ramps.length) :
    ∃ fig, plot_colormaps E w hpr = some fig ∧ fig.rowNames = E.ramps ∧
      fig.figHeight = hpr * (E.ramps.length : ℚ) ∧ fig.figWidth = w :=
  ⟨⟨w, hpr * (E.ramps.length : ℚ), E.ramps⟩, plot_colormaps_eq E w hpr h2,
    rfl, rfl, rfl⟩

/-- C9 witness: the claim instantiated at the two-ramp stub engine with
width 8 and per-row height 1. -/
theorem C9_witness :
    ∃ fig, plot_colormaps twoEngine 8 1 = some fig ∧
      fig.rowNames = twoEngine.ramps ∧
      fig.figHeight = 1 * (twoEngine.ramps.length : ℚ) ∧ fig.figWidth = 8 :=
  C9_plot_colormaps_shape twoEngine 8 1 (by decide)

/-- C10: plot_colormaps succeeds exactly when the engine registers at
least two ramp names; with zero rows the backend rejects the grid and
with exactly one row the squeezed single axes object is not iterable, so
the per-row loop fails and no figure is produced. -/
theorem C10_plot_colormaps_success_iff (E : Engine) (w hpr : ℚ) :
    (plot_colormaps E w hpr).isSome = true ↔ 2 ≤ E.ramps.length := by
  constructor
  · intro h
    by_contra hlt
    push_neg at hlt
    interval_cases hlen : E.ramps.length
    · rw [plot_colormaps] at h
      simp only [list_colormaps, hlen, subplots, if_pos rfl] at h
      exact absurd h (by simp)
    · rw [plot_colormaps] at h
      simp only [list_colormaps, hlen, subplots] at h
      norm_num at h
  · intro h2
    rw [plot_colormaps_eq E w hpr h2]
    rfl

end Colormaps
